import Mathlib

/-
Verification of the deploy-execution pipeline of mediawiki-utils-go
(internal package, src/main.go) against its natural-language
specification.  The Go code is shallowly embedded: each Go function that
the claims mention is translated into a Lean definition of the same name,
external processes (git, composer, rsync, php) are abstracted into
oracles reporting success or failure of one step, and the orchestrator is
modelled as a pure function returning the trace of attempted steps
together with the final outcome.
-/

namespace MwDeploy

/-- Go source: constant DEPLOYUSER, the user used for deploying to other servers. -/
def DEPLOYUSER : String := "mediawikiuser"

/-- Go source: constant EXTENSIONPATH, path where extensions are located. -/
def EXTENSIONPATH : String := "/prod/mediawiki-staging/extensions/"

/-- Go source: constant SKINPATH, path where skins are located. -/
def SKINPATH : String := "/prod/mediawiki-staging/skins/"

/-- Go source: constant STAGINGPATH, bare path for the staging environment. -/
def STAGINGPATH : String := "/prod/mediawiki-staging"

/-- Go source: constant PRODUCTIONPATH, bare path for the production environment. -/
def PRODUCTIONPATH : String := "/prod/mediawiki"

/-- Go source: ALLSERVERS, all of the servers that are valid. -/
def ALLSERVERS : List String := ["mw1", "mw2", "mwtask1"]

/-- Go source: struct DeployConfig, all possible deploy options.
Slices become lists (Go ranges over them in declared order), strings and
booleans carry over directly. -/
structure DeployConfig where
  upgradeExtensions : List String := []
  upgradeSkins : List String := []
  upgradeVendor : Bool := false
  upgradeWorld : Bool := false
  l10n : Bool := false
  lang : String := ""
  servers : List String := []
  ignoreTime : Bool := false
  force : Bool := false
deriving DecidableEq, Repr

/-- Inventory snapshot: the values that GetValidExtensions and GetValidSkins
return for one run (the directory scans themselves touch the filesystem and
are out of scope; the pipeline only consumes their result). -/
structure Inventory where
  extensions : List String := []
  skins : List String := []
deriving DecidableEq, Repr

/-- Go source: func contains, helper to check if a []string array contains a
specific item, by scanning front to back. -/
def contains (slice : List String) (item : String) : Bool :=
  match slice with
  | [] => false
  | s :: rest => if s = item then true else contains rest item

/-- Go source: RunDeploy lines 93 to 99.  When UpgradeWorld is set, the
config is overwritten with the CURRENT values of the global variables
VALIDEXTENSIONS and VALIDSKINS (passed here as arguments), and vendor
update, l10n and ignore-time are switched on.  Servers, lang and force are
left untouched. -/
def expandUpgradeWorld (validExtensions validSkins : List String)
    (config : DeployConfig) : DeployConfig :=
  if config.upgradeWorld then
    { config with
      upgradeExtensions := validExtensions
      upgradeSkins := validSkins
      upgradeVendor := true
      l10n := true
      ignoreTime := true }
  else config

/-- Validation errors, one per fmt.Errorf site in validateConfig. -/
inductive ValidationError where
  | invalidExtension (name : String)
  | invalidSkin (name : String)
  | noServers
  | langWithoutL10n
deriving DecidableEq, Repr

/-- First element of the target list that is not in the valid list, scanning
in declared order; mirrors the for loops in validateConfig. -/
def firstInvalid (valid : List String) : List String → Option String
  | [] => none
  | t :: rest => if !(contains valid t) then some t else firstInvalid valid rest

/-- Go source: func validateConfig.  Checks extensions (in declared order),
then skins (in declared order), then non-empty servers, then that a lang
filter is only given together with l10n; returns the first violation found,
or none.  In the embedding it is a pure function of the config and of the
two global valid lists, and it does not modify the config. -/
def validateConfig (validExtensions validSkins : List String)
    (config : DeployConfig) : Option ValidationError :=
  match firstInvalid validExtensions config.upgradeExtensions with
  | some ext => some (ValidationError.invalidExtension ext)
  | none =>
    match firstInvalid validSkins config.upgradeSkins with
    | some skin => some (ValidationError.invalidSkin skin)
    | none =>
      if config.servers.isEmpty then some ValidationError.noServers
      else if config.lang != "" && !config.l10n then some ValidationError.langWithoutL10n
      else none

/-- One step of the deploy sequence, as driven by executeDeploy.  Each
constructor corresponds to one call site in the Go function body. -/
inductive Step where
  | vendorUpdate
  | extensionUpdate (name : String)
  | skinUpdate (name : String)
  | localSync
  | l10nRebuild (lang : String)
  | remoteSync (server : String)
deriving DecidableEq, Repr

/-- The local part of executeDeploy (the body of the
`if contains(config.Servers, HOSTNAME)` block): vendor update when
requested, then each requested extension in declared order, then each
requested skin in declared order, then the local rsync (unconditional),
then the l10n rebuild when requested. -/
def localSeq (config : DeployConfig) : List Step :=
  (if config.upgradeVendor then [Step.vendorUpdate] else [])
  ++ config.upgradeExtensions.map Step.extensionUpdate
  ++ config.upgradeSkins.map Step.skinUpdate
  ++ [Step.localSync]
  ++ (if config.l10n then [Step.l10nRebuild config.lang] else [])

/-- The remote part of executeDeploy: one remote rsync per listed server,
in declared order, skipping any entry equal to the local hostname. -/
def remoteSeq (hostname : String) (config : DeployConfig) : List Step :=
  (config.servers.filter (fun server => server != hostname)).map Step.remoteSync

/-- The full sequence of steps executeDeploy drives: the local block only
when the hostname appears in config.Servers, then the remote loop. -/
def plannedSteps (hostname : String) (config : DeployConfig) : List Step :=
  (if contains config.servers hostname then localSeq config else [])
  ++ remoteSeq hostname config

/-- The uniform per-step failure policy of executeDeploy, applied to a list
of steps.  Every step in the Go body is wrapped in the same pattern: run
it; on error append exit code 1 to exitCodes and, unless force is set,
return that error at once.  The result is the trace of attempted steps, the
accumulated exit codes, and the step whose error aborted the run (if any).
The step oracle stands for the external processes: true means the step
succeeded. -/
def runSteps (oracle : Step → Bool) (force : Bool) : List Step → List Step × List Nat × Option Step
  | [] => ([], [], none)
  | s :: rest =>
    if oracle s then
      match runSteps oracle force rest with
      | (trace, codes, aborted) => (s :: trace, codes, aborted)
    else if force then
      match runSteps oracle force rest with
      | (trace, codes, aborted) => (s :: trace, 1 :: codes, aborted)
    else ([s], [1], some s)

/-- Final outcome of executeDeploy: either the error of the step that
aborted the run (force unset), or the generic deployment-completed-with-
errors failure from the final exitCodes scan. -/
inductive DeployError where
  | stepFailed (step : Step)
  | completedWithErrors
deriving DecidableEq, Repr

/-- Go source: func executeDeploy.  Drives the planned steps under the
per-step failure policy and then scans exitCodes: any non-zero code turns
the run into the generic completed-with-errors failure. -/
def executeDeploy (oracle : Step → Bool) (hostname : String)
    (config : DeployConfig) : List Step × Option DeployError :=
  match runSteps oracle config.force (plannedSteps hostname config) with
  | (trace, _, some s) => (trace, some (DeployError.stepFailed s))
  | (trace, codes, none) =>
    (trace, if codes.any (fun code => code != 0) then some DeployError.completedWithErrors else none)

/-- Overall outcome of one RunDeploy invocation. -/
inductive RunResult where
  | validationFailed (e : ValidationError)
  | deployFailed (e : DeployError)
  | success
deriving DecidableEq, Repr

/-- Go source: func RunDeploy, from flag parsing to completion.  The order
of operations is taken exactly from the source: first the UpgradeWorld
expansion reads the global variables VALIDEXTENSIONS and VALIDSKINS
(arguments validExtensions0 and validSkins0 here), ONLY THEN are those
globals assigned from the inventory scan (GetValidExtensions and
GetValidSkins, whose result is the inv argument), then validateConfig runs
against the freshly scanned inventory; a validation error is fatal
(log.Fatal) and nothing is executed, otherwise executeDeploy runs.
Returns the expanded config, the step trace, and the outcome. -/
def runDeploy (oracle : Step → Bool) (hostname : String)
    (validExtensions0 validSkins0 : List String) (inv : Inventory)
    (config : DeployConfig) : DeployConfig × List Step × RunResult :=
  let expanded := expandUpgradeWorld validExtensions0 validSkins0 config
  match validateConfig inv.extensions inv.skins expanded with
  | some e => (expanded, [], RunResult.validationFailed e)
  | none =>
    match executeDeploy oracle hostname expanded with
    | (trace, some e) => (expanded, trace, RunResult.deployFailed e)
    | (trace, none) => (expanded, trace, RunResult.success)

/-- RunDeploy as reached from main: the package-level globals
VALIDEXTENSIONS and VALIDSKINS still hold their zero value (nil) when the
UpgradeWorld expansion runs, because RunDeploy assigns them only after it. -/
def runDeployFromStart (oracle : Step → Bool) (hostname : String)
    (inv : Inventory) (config : DeployConfig) : DeployConfig × List Step × RunResult :=
  runDeploy oracle hostname [] [] inv config

/-- One invocation of the helper runRsync inside rsyncToLocalProduction:
the params string it was given, plus the source and destination paths. -/
structure RsyncCall where
  params : String
  src : String
  dst : String
deriving DecidableEq, Repr

/-- The rsync call for one extension subtree in rsyncToLocalProduction.
fmt.Sprintf concatenation kept character for character: EXTENSIONPATH
already ends in a slash, so the source carries a double slash. -/
def extensionSyncCall (rsyncParams ext : String) : RsyncCall :=
  { params := rsyncParams
    src := EXTENSIONPATH ++ "/" ++ ext ++ "/"
    dst := PRODUCTIONPATH ++ "/extensions/" ++ ext ++ "/" }

/-- The rsync call for one skin subtree in rsyncToLocalProduction. -/
def skinSyncCall (rsyncParams skin : String) : RsyncCall :=
  { params := rsyncParams
    src := SKINPATH ++ "/" ++ skin ++ "/"
    dst := PRODUCTIONPATH ++ "/skins/" ++ skin ++ "/" }

/-- The rsync call for the vendor subtree, emitted when upgradeVendor is
set. -/
def vendorSyncCalls (rsyncParams : String) (config : DeployConfig) : List RsyncCall :=
  if config.upgradeVendor then
    [{ params := rsyncParams
       src := STAGINGPATH ++ "/vendor/"
       dst := PRODUCTIONPATH ++ "/vendor/" }]
  else []

/-- The params string rsyncToLocalProduction picks: update-only sync by
default, in-place overwrite under ignoreTime. -/
def localSyncParams (config : DeployConfig) : String :=
  if config.ignoreTime then "--inplace" else "--update"

/-- The full list of subtree rsync calls rsyncToLocalProduction issues, in
source order: vendor (when requested), then each requested extension in
declared order, then each requested skin in declared order. -/
def localSyncCalls (config : DeployConfig) : List RsyncCall :=
  vendorSyncCalls (localSyncParams config) config
  ++ config.upgradeExtensions.map (extensionSyncCall (localSyncParams config))
  ++ config.upgradeSkins.map (skinSyncCall (localSyncParams config))

/-- Runs subtree rsync calls in order against an oracle for the external
rsync process, returning the attempted calls and the overall success flag.
Mirrors the control flow of rsyncToLocalProduction, where every runRsync
error is returned immediately: the first failing call ends the function. -/
def runCalls (oracle : RsyncCall → Bool) : List RsyncCall → List RsyncCall × Bool
  | [] => ([], true)
  | c :: rest =>
    if oracle c then
      match runCalls oracle rest with
      | (attempted, ok) => (c :: attempted, ok)
    else ([c], false)

/-- Go source: func rsyncToLocalProduction, as the list of attempted
subtree calls plus success of the step as a whole. -/
def rsyncToLocalProduction (oracle : RsyncCall → Bool)
    (config : DeployConfig) : List RsyncCall × Bool :=
  runCalls oracle (localSyncCalls config)

/-- Go strings.Split(s, sep) for the single-character separator used in
runRsync: cut at every occurrence of the separator, keeping empty fields.
Written over the character list so that it evaluates inside the kernel. -/
def splitChar (c : Char) : List Char → List (List Char)
  | [] => [[]]
  | a :: rest =>
    match splitChar c rest with
    | [] => if a = c then [[], []] else [[a]]
    | g :: gs => if a = c then [] :: g :: gs else (a :: g) :: gs

/-- Go strings.Split(params, " ") as used by runRsync. -/
def goSplitSpace (s : String) : List String :=
  (splitChar ' ' s.toList).map (fun cs => String.mk cs)

/-- Go source: func runRsync.  Splits the params string on single spaces
and appends the fixed flags, the source and the destination; the result is
the argument vector handed to the rsync process. -/
def runRsyncArgs (params src dst : String) : List String :=
  goSplitSpace params ++ ["-r", "--delete", "--exclude=.*", src, dst]

/-- Go source: func rsyncToRemoteServer.  Builds the params string with the
ssh options spliced in as one space-separated string, prefixes the
timestamp policy flag, and calls runRsync with the production root as
source and user at server colon production root as destination. -/
def rsyncToRemoteServerArgs (server : String) (config : DeployConfig) : List String :=
  let base := "-e ssh -i /prod/mediawiki-staging/deploykey"
  let rsyncParams := if config.ignoreTime then "--inplace " ++ base else "--update " ++ base
  let src := PRODUCTIONPATH ++ "/"
  let dst := DEPLOYUSER ++ "@" ++ server ++ ":" ++ PRODUCTIONPATH ++ "/"
  runRsyncArgs rsyncParams src dst

/-- True when the string starts with a dash character. -/
def strStartsDash (s : String) : Bool :=
  match s.toList with
  | [] => false
  | c :: _ => c = '-'

/-- Modelled from the spec: the invocation contract of the external
file-mirroring tool (rsync), which the spec treats as a collaborator known
only through its command line (sections 1 and 6).  Classification of an
argument vector into options and transfer endpoints, per the standard
command-line convention of that tool: an argument beginning with a dash is
an option, the option -e additionally consumes the following argument as
the remote-shell command, and every remaining argument is a transfer
endpoint (sources first, destination last). -/
def rsyncOperands : List String → List String
  | [] => []
  | a :: rest =>
    if a = "-e" then
      match rest with
      | [] => []
      | _ :: rest2 => rsyncOperands rest2
    else if strStartsDash a then rsyncOperands rest
    else a :: rsyncOperands rest

/-! Helper lemmas about the step runner. -/

/-- When every step of the list succeeds, the runner attempts all of them,
records no exit codes and does not abort, whatever the force flag. -/
theorem runSteps_all_ok (oracle : Step → Bool) (force : Bool) :
    ∀ l : List Step, (∀ s ∈ l, oracle s = true) →
      runSteps oracle force l = (l, [], none)
  | [], _ => rfl
  | s :: rest, h => by
    have hs : oracle s = true := h s (List.mem_cons_self s rest)
    have ih := runSteps_all_ok oracle force rest
      (fun x hx => h x (List.mem_cons_of_mem s hx))
    simp [runSteps, hs, ih]

/-- Under force, the runner never aborts: it attempts every step of the
list and records one exit code per failing step. -/
theorem runSteps_force (oracle : Step → Bool) :
    ∀ l : List Step, runSteps oracle true l =
      (l, (l.filter (fun s => !(oracle s))).map (fun _ => (1 : Nat)), none)
  | [] => rfl
  | s :: rest => by
    have ih := runSteps_force oracle rest
    by_cases hs : oracle s = true
    · simp [runSteps, hs, ih, List.filter_cons]
    · have hs' : oracle s = false := by simpa using hs
      simp [runSteps, hs', ih, List.filter_cons]

/-- Without force, the first failing step ends the run: the trace is the
successful prefix plus that step, and the run aborts with it. -/
theorem runSteps_failfast (oracle : Step → Bool) (s : Step) (post : List Step)
    (hfail : oracle s = false) :
    ∀ pre : List Step, (∀ p ∈ pre, oracle p = true) →
      runSteps oracle false (pre ++ s :: post) = (pre ++ [s], [1], some s)
  | [], _ => by simp [runSteps, hfail]
  | p :: pre, h => by
    have hp : oracle p = true := h p (List.mem_cons_self p pre)
    have ih := runSteps_failfast oracle s post hfail pre
      (fun x hx => h x (List.mem_cons_of_mem p hx))
    simp [runSteps, hp, ih]

/-- Every step the runner attempts comes from the input list. -/
theorem runSteps_trace_mem (oracle : Step → Bool) (force : Bool) :
    ∀ l : List Step, ∀ x, x ∈ (runSteps oracle force l).1 → x ∈ l
  | [] => by intro x hx; simp [runSteps] at hx
  | s :: rest => by
    intro x hx
    have ih := runSteps_trace_mem oracle force rest
    rcases hrec : runSteps oracle force rest with ⟨t, c, a⟩
    by_cases hs : oracle s = true
    · rw [runSteps, if_pos hs, hrec] at hx
      rcases List.mem_cons.mp hx with h | h
      · exact h ▸ List.mem_cons_self s rest
      · exact List.mem_cons_of_mem s (ih x (by rw [hrec]; exact h))
    · rw [runSteps, if_neg hs] at hx
      by_cases hf : force = true
      · rw [if_pos hf, hrec] at hx
        rcases List.mem_cons.mp hx with h | h
        · exact h ▸ List.mem_cons_self s rest
        · exact List.mem_cons_of_mem s (ih x (by rw [hrec]; exact h))
      · rw [if_neg hf] at hx
        rcases List.mem_cons.mp hx with h | h
        · exact h ▸ List.mem_cons_self s rest
        · simp at h
    termination_by l => l

/-- When the runner does not abort, its trace is the whole input list. -/
theorem runSteps_no_abort_trace (oracle : Step → Bool) (force : Bool) :
    ∀ l : List Step, (runSteps oracle force l).2.2 = none →
      (runSteps oracle force l).1 = l
  | [] => fun _ => rfl
  | s :: rest => by
    intro h
    have ih := runSteps_no_abort_trace oracle force rest
    rcases hrec : runSteps oracle force rest with ⟨t, c, a⟩
    by_cases hs : oracle s = true
    · rw [runSteps, if_pos hs, hrec] at h ⊢
      have := ih (by rw [hrec]; simpa using h)
      rw [hrec] at this
      simpa using this
    · rw [runSteps, if_neg hs] at h ⊢
      by_cases hf : force = true
      · rw [if_pos hf, hrec] at h ⊢
        have := ih (by rw [hrec]; simpa using h)
        rw [hrec] at this
        simpa using this
      · rw [if_neg hf] at h
        simp at h
    termination_by l => l

/-- The runner on an appended list: if the first part aborts, the second
part is never reached; otherwise the results are concatenated. -/
theorem runSteps_append (oracle : Step → Bool) (force : Bool) (l2 : List Step) :
    ∀ l1 : List Step, runSteps oracle force (l1 ++ l2) =
      match runSteps oracle force l1 with
      | (t1, c1, some s) => (t1, c1, some s)
      | (t1, c1, none) =>
        match runSteps oracle force l2 with
        | (t2, c2, a2) => (t1 ++ t2, c1 ++ c2, a2)
  | [] => by simp [runSteps]
  | s :: rest => by
    have ih := runSteps_append oracle force l2 rest
    rcases hrec : runSteps oracle force rest with ⟨t, c, a⟩
    rw [hrec] at ih
    by_cases hs : oracle s = true
    · rcases a with _ | s0 <;>
        rcases h2 : runSteps oracle force l2 with ⟨t2, c2, a2⟩ <;>
        simp [runSteps, hs, ih, hrec, h2]
    · by_cases hf : force = true
      · subst hf
        rcases a with _ | s0 <;>
          rcases h2 : runSteps oracle true l2 with ⟨t2, c2, a2⟩ <;>
          simp [runSteps, hs, ih, hrec, h2]
      · have hf' : force = false := by simpa using hf
        subst hf'
        simp [runSteps, hs]

/-- The local sequence never contains a remote sync step. -/
theorem remoteSync_not_mem_localSeq (config : DeployConfig) (server : String) :
    Step.remoteSync server ∉ localSeq config := by
  simp [localSeq]

/-- A target list passes the scan exactly when each entry is valid. -/
theorem firstInvalid_eq_none (valid : List String) :
    ∀ l : List String, (firstInvalid valid l = none ↔ ∀ x ∈ l, contains valid x = true)
  | [] => by simp [firstInvalid]
  | t :: rest => by
    have ih := firstInvalid_eq_none valid rest
    by_cases ht : contains valid t = true
    · simp [firstInvalid, ht, ih]
    · have ht' : contains valid t = false := by simpa using ht
      simp [firstInvalid, ht']

/-- The scan reports the first invalid entry in declared order. -/
theorem firstInvalid_split (valid : List String) (x : String) (post : List String)
    (hfail : contains valid x = false) :
    ∀ pre : List String, (∀ p ∈ pre, contains valid p = true) →
      firstInvalid valid (pre ++ x :: post) = some x
  | [], _ => by simp [firstInvalid, hfail]
  | p :: pre, h => by
    have hp : contains valid p = true := h p (List.mem_cons_self p pre)
    have ih := firstInvalid_split valid x post hfail pre
      (fun y hy => h y (List.mem_cons_of_mem p hy))
    simp [firstInvalid, hp, ih]

/-- The subtree-call runner stops at the first failing call: the
successful prefix and that call are attempted, nothing after it. -/
theorem runCalls_failfast (oracle : RsyncCall → Bool) (c : RsyncCall) (post : List RsyncCall)
    (hfail : oracle c = false) :
    ∀ pre : List RsyncCall, (∀ p ∈ pre, oracle p = true) →
      runCalls oracle (pre ++ c :: post) = (pre ++ [c], false)
  | [], _ => by simp [runCalls, hfail]
  | p :: pre, h => by
    have hp : oracle p = true := h p (List.mem_cons_self p pre)
    have ih := runCalls_failfast oracle c post hfail pre
      (fun y hy => h y (List.mem_cons_of_mem p hy))
    simp [runCalls, hp, ih]

/-- A some answer of the scan names an invalid member of the list. -/
theorem firstInvalid_some (valid : List String) :
    ∀ l x, firstInvalid valid l = some x → x ∈ l ∧ contains valid x = false
  | [], x => by simp [firstInvalid]
  | t :: rest, x => by
    intro h
    by_cases ht : contains valid t = true
    · simp only [firstInvalid, ht, Bool.not_true, Bool.false_eq_true, if_false] at h
      obtain ⟨hm, hc⟩ := firstInvalid_some valid rest x h
      exact ⟨List.mem_cons_of_mem t hm, hc⟩
    · have ht' : contains valid t = false := by simpa using ht
      simp only [firstInvalid, ht', Bool.not_false, if_true, Option.some.injEq] at h
      subst h
      exact ⟨List.mem_cons_self t rest, ht'⟩

/-- Validation succeeds exactly when every rule holds. -/
theorem validateConfig_eq_none_iff (validExtensions validSkins : List String)
    (config : DeployConfig) :
    validateConfig validExtensions validSkins config = none ↔
      ((∀ e ∈ config.upgradeExtensions, contains validExtensions e = true) ∧
       (∀ s ∈ config.upgradeSkins, contains validSkins s = true) ∧
       config.servers ≠ [] ∧
       (config.lang ≠ "" → config.l10n = true)) := by
  constructor
  · intro h
    unfold validateConfig at h
    rcases he : firstInvalid validExtensions config.upgradeExtensions with _ | e
    · rw [he] at h
      rcases hsk : firstInvalid validSkins config.upgradeSkins with _ | s
      · rw [hsk] at h
        by_cases hsrv : config.servers.isEmpty = true
        · rw [if_pos hsrv] at h
          exact absurd h (by simp)
        · rw [if_neg hsrv] at h
          by_cases hl : (config.lang != "" && !config.l10n) = true
          · rw [if_pos hl] at h
            exact absurd h (by simp)
          · refine ⟨(firstInvalid_eq_none _ _).mp he, (firstInvalid_eq_none _ _).mp hsk,
              ?_, ?_⟩
            · intro hnil
              exact hsrv (by simp [hnil])
            · intro hlang
              by_contra hneg
              apply hl
              have hlf : config.l10n = false := by simpa using hneg
              simp [hlf, bne_iff_ne, hlang]
      · rw [hsk] at h
        exact absurd h (by simp)
    · rw [he] at h
      exact absurd h (by simp)
  · rintro ⟨hA, hB, hsrv, hlang⟩
    unfold validateConfig
    rw [(firstInvalid_eq_none _ _).mpr hA, (firstInvalid_eq_none _ _).mpr hB]
    have h1 : config.servers.isEmpty ≠ true := by
      simpa [List.isEmpty_iff] using hsrv
    rw [if_neg h1]
    have h2 : (config.lang != "" && !config.l10n) ≠ true := by
      intro hcontra
      simp only [Bool.and_eq_true, bne_iff_ne, ne_eq, Bool.not_eq_true'] at hcontra
      obtain ⟨hl1, hl2⟩ := hcontra
      rw [hlang hl1] at hl2
      exact Bool.noConfusion hl2
    rw [if_neg h2]

/-- Validation reports the first invalid extension in declared order. -/
theorem validateConfig_first_bad_extension (validExtensions validSkins : List String)
    (config : DeployConfig) (pre : List String) (e : String) (post : List String)
    (hsplit : config.upgradeExtensions = pre ++ e :: post)
    (hpre : ∀ p ∈ pre, contains validExtensions p = true)
    (hfail : contains validExtensions e = false) :
    validateConfig validExtensions validSkins config =
      some (ValidationError.invalidExtension e) := by
  unfold validateConfig
  rw [hsplit, firstInvalid_split validExtensions e post hfail pre hpre]

/-- With all extensions valid, validation reports the first invalid skin. -/
theorem validateConfig_first_bad_skin (validExtensions validSkins : List String)
    (config : DeployConfig)
    (hA : ∀ x ∈ config.upgradeExtensions, contains validExtensions x = true)
    (pre : List String) (s : String) (post : List String)
    (hsplit : config.upgradeSkins = pre ++ s :: post)
    (hpre : ∀ p ∈ pre, contains validSkins p = true)
    (hfail : contains validSkins s = false) :
    validateConfig validExtensions validSkins config =
      some (ValidationError.invalidSkin s) := by
  unfold validateConfig
  rw [(firstInvalid_eq_none _ _).mpr hA, hsplit,
    firstInvalid_split validSkins s post hfail pre hpre]

/-- With all targets valid, an empty server list yields the no-servers
error. -/
theorem validateConfig_noServers (validExtensions validSkins : List String)
    (config : DeployConfig)
    (hA : ∀ x ∈ config.upgradeExtensions, contains validExtensions x = true)
    (hB : ∀ x ∈ config.upgradeSkins, contains validSkins x = true)
    (hnil : config.servers = []) :
    validateConfig validExtensions validSkins config = some ValidationError.noServers := by
  unfold validateConfig
  rw [(firstInvalid_eq_none _ _).mpr hA, (firstInvalid_eq_none _ _).mpr hB]
  have : config.servers.isEmpty = true := by simp [hnil]
  rw [if_pos this]

/-- With all targets valid and servers given, a language filter without
l10n yields the lang-without-l10n error. -/
theorem validateConfig_langWithoutL10n (validExtensions validSkins : List String)
    (config : DeployConfig)
    (hA : ∀ x ∈ config.upgradeExtensions, contains validExtensions x = true)
    (hB : ∀ x ∈ config.upgradeSkins, contains validSkins x = true)
    (hsrv : config.servers ≠ []) (hlang : config.lang ≠ "")
    (hl10n : config.l10n = false) :
    validateConfig validExtensions validSkins config =
      some ValidationError.langWithoutL10n := by
  unfold validateConfig
  rw [(firstInvalid_eq_none _ _).mpr hA, (firstInvalid_eq_none _ _).mpr hB]
  have h1 : config.servers.isEmpty ≠ true := by
    simpa [List.isEmpty_iff] using hsrv
  rw [if_neg h1]
  have h2 : (config.lang != "" && !config.l10n) = true := by
    simp [bne_iff_ne, hlang, hl10n]
  rw [if_pos h2]

/-- The upgrade-world expansion never changes the server list. -/
theorem expandUpgradeWorld_servers (validExtensions validSkins : List String)
    (config : DeployConfig) :
    (expandUpgradeWorld validExtensions validSkins config).servers = config.servers := by
  unfold expandUpgradeWorld
  split <;> rfl

/-! Claim theorems. -/

/-- C3: for every validated request with continueOnError (the force flag)
set, every step of the mandated sequence is attempted exactly once, in
order, regardless of earlier step failures, and the final result of the run
is a failure if and only if at least one step failed. -/
theorem continueOnError_attempts_every_step (oracle : Step → Bool)
    (hostname : String) (config : DeployConfig) (hforce : config.force = true) :
    (executeDeploy oracle hostname config).1 = plannedSteps hostname config ∧
    ((executeDeploy oracle hostname config).2 = none ↔
      ∀ s ∈ plannedSteps hostname config, oracle s = true) := by
  unfold executeDeploy
  rw [hforce, runSteps_force]
  by_cases h : ∀ s ∈ plannedSteps hostname config, oracle s = true
  · have hfil : (plannedSteps hostname config).filter (fun s => !(oracle s)) = [] :=
      List.filter_eq_nil_iff.mpr (fun a ha => by simp [h a ha])
    simp only [hfil]
    simp
    exact h
  · have h' := h
    push_neg at h'
    obtain ⟨s, hs, hns⟩ := h'
    have hs' : oracle s = false := by simpa using hns
    have hmem : s ∈ (plannedSteps hostname config).filter (fun x => !(oracle x)) :=
      List.mem_filter.mpr ⟨hs, by simp [hs']⟩
    have hany : (((plannedSteps hostname config).filter (fun x => !(oracle x))).map
        (fun _ => (1 : Nat))).any (fun code => code != 0) = true := by
      refine List.any_eq_true.mpr ⟨1, List.mem_map.mpr ⟨s, hmem, rfl⟩, by decide⟩
    simp [hany, h]

/-- C3 witness at a concrete input: two extensions, the second one failing,
force set; both updates, the local sync and the remote sync are attempted
and the run is reported failed. -/
def oracleC3 : Step → Bool := fun s => s != Step.extensionUpdate "B"

/-- C3 witness config. -/
def cfgC3 : DeployConfig :=
  { upgradeExtensions := ["A", "B"], servers := ["mw1", "mw2"], force := true }

/-- C3 witness: the theorem applied at the concrete input above. -/
theorem continueOnError_attempts_every_step_witness :
    cfgC3.force = true ∧
    ((executeDeploy oracleC3 "mw1" cfgC3).1 = plannedSteps "mw1" cfgC3 ∧
     ((executeDeploy oracleC3 "mw1" cfgC3).2 = none ↔
       ∀ s ∈ plannedSteps "mw1" cfgC3, oracleC3 s = true)) :=
  ⟨rfl, continueOnError_attempts_every_step oracleC3 "mw1" cfgC3 rfl⟩

/-- C4: for every validated request with continueOnError (force) unset, if
a step fails then none of the subsequent steps of the sequence is
performed, and that step failure is the final result of the run. -/
theorem failfast_halts_at_first_failure (oracle : Step → Bool)
    (hostname : String) (config : DeployConfig) (hforce : config.force = false)
    (pre : List Step) (s : Step) (post : List Step)
    (hplan : plannedSteps hostname config = pre ++ s :: post)
    (hpre : ∀ p ∈ pre, oracle p = true) (hfail : oracle s = false) :
    executeDeploy oracle hostname config =
      (pre ++ [s], some (DeployError.stepFailed s)) := by
  unfold executeDeploy
  rw [hforce, hplan, runSteps_failfast oracle s post hfail pre hpre]

/-- C4 witness oracle: fails exactly on the update of extension B. -/
def oracleC4 : Step → Bool := fun s => s != Step.extensionUpdate "B"

/-- C4 witness config: three extensions, force unset. -/
def cfgC4 : DeployConfig :=
  { upgradeExtensions := ["A", "B", "C"], servers := ["mw1", "mw2"] }

/-- C4 witness: with extension B failing and force unset, only A and B are
attempted; C, the local sync and the remote sync are never reached, and the
failure of B is the result. -/
theorem failfast_halts_at_first_failure_witness :
    cfgC4.force = false ∧
    plannedSteps "mw1" cfgC4 =
      [Step.extensionUpdate "A"] ++ Step.extensionUpdate "B" ::
        [Step.extensionUpdate "C", Step.localSync, Step.remoteSync "mw2"] ∧
    executeDeploy oracleC4 "mw1" cfgC4 =
      ([Step.extensionUpdate "A"] ++ [Step.extensionUpdate "B"],
       some (DeployError.stepFailed (Step.extensionUpdate "B"))) :=
  ⟨rfl, by decide,
    failfast_halts_at_first_failure oracleC4 "mw1" cfgC4 rfl
      [Step.extensionUpdate "A"] (Step.extensionUpdate "B")
      [Step.extensionUpdate "C", Step.localSync, Step.remoteSync "mw2"]
      (by decide) (by decide) (by decide)⟩

/-- C5: for every validated request (run here with an all-succeeding step
oracle so the whole sequence is observable), the attempted steps are the
local sequence exactly when the local hostname is a member of the server
list, followed by one remote sync per listed server other than the local
host, in declared order; the local host is never remote-synced, and the
local sequence runs if and only if the hostname is listed. -/
theorem local_remote_scope (oracle : Step → Bool) (hostname : String)
    (config : DeployConfig) (hok : ∀ s, oracle s = true) :
    (executeDeploy oracle hostname config).1 =
      (if contains config.servers hostname then localSeq config else [])
        ++ (config.servers.filter (fun server => server != hostname)).map Step.remoteSync ∧
    Step.remoteSync hostname ∉ (executeDeploy oracle hostname config).1 ∧
    (Step.localSync ∈ (executeDeploy oracle hostname config).1 ↔
      contains config.servers hostname = true) := by
  have htrace : (executeDeploy oracle hostname config).1 = plannedSteps hostname config := by
    unfold executeDeploy
    rw [runSteps_all_ok oracle config.force _ (fun s _ => hok s)]
  refine ⟨?_, ?_, ?_⟩
  · rw [htrace]; rfl
  · rw [htrace]
    intro hmem
    rcases List.mem_append.mp hmem with h | h
    · by_cases hc : contains config.servers hostname = true
      · rw [if_pos hc] at h
        exact remoteSync_not_mem_localSeq config hostname h
      · rw [if_neg hc] at h
        simp at h
    · simp only [remoteSeq, List.mem_map] at h
      obtain ⟨sv, hsv, heq⟩ := h
      have hne := (List.mem_filter.mp hsv).2
      have : sv = hostname := by injection heq
      rw [this] at hne
      simp at hne
  · rw [htrace]
    constructor
    · intro hmem
      rcases List.mem_append.mp hmem with h | h
      · by_cases hc : contains config.servers hostname = true
        · exact hc
        · rw [if_neg hc] at h
          simp at h
      · exfalso
        simp only [remoteSeq, List.mem_map] at h
        obtain ⟨sv, _, heq⟩ := h
        exact Step.noConfusion heq
    · intro hc
      apply List.mem_append.mpr
      left
      rw [if_pos hc]
      simp [localSeq]

/-- C5 witness config: the local host is listed twice among the servers,
together with one remote server. -/
def cfgC5 : DeployConfig :=
  { upgradeExtensions := ["A"], servers := ["mw1", "mw2", "mw1"] }

/-- C5 witness: the theorem applied at the concrete input above with the
all-succeeding oracle. -/
theorem local_remote_scope_witness :
    (executeDeploy (fun _ => true) "mw1" cfgC5).1 =
      (if contains cfgC5.servers "mw1" then localSeq cfgC5 else [])
        ++ (cfgC5.servers.filter (fun server => server != "mw1")).map Step.remoteSync ∧
    Step.remoteSync "mw1" ∉ (executeDeploy (fun _ => true) "mw1" cfgC5).1 ∧
    (Step.localSync ∈ (executeDeploy (fun _ => true) "mw1" cfgC5).1 ↔
      contains cfgC5.servers "mw1" = true) :=
  local_remote_scope (fun _ => true) "mw1" cfgC5 (fun _ => rfl)

/-- C6: in every execution, whatever the oracle outcomes and flags, an
attempted remote sync implies that the trace is the complete in-scope local
sequence followed only by remote sync steps: no remote sync begins before
the whole local sequence has completed. -/
theorem remote_sync_after_local_completes (oracle : Step → Bool)
    (hostname : String) (config : DeployConfig) (server : String)
    (hremote : Step.remoteSync server ∈ (executeDeploy oracle hostname config).1) :
    ∃ remotePart, (executeDeploy oracle hostname config).1 =
        (if contains config.servers hostname then localSeq config else []) ++ remotePart ∧
      ∀ x ∈ remotePart, ∃ sv, x = Step.remoteSync sv := by
  have htrace : (executeDeploy oracle hostname config).1 =
      (runSteps oracle config.force (plannedSteps hostname config)).1 := by
    unfold executeDeploy
    rcases hr : runSteps oracle config.force (plannedSteps hostname config) with ⟨t, c, a⟩
    rcases a with _ | s <;> simp
  have hplan : plannedSteps hostname config =
      (if contains config.servers hostname then localSeq config else [])
        ++ remoteSeq hostname config := rfl
  have hnotL : ∀ sv, Step.remoteSync sv ∉
      (if contains config.servers hostname then localSeq config else []) := by
    intro sv
    by_cases hc : contains config.servers hostname = true
    · rw [if_pos hc]
      exact remoteSync_not_mem_localSeq config sv
    · rw [if_neg hc]
      simp
  have happ := runSteps_append oracle config.force (remoteSeq hostname config)
    (if contains config.servers hostname then localSeq config else [])
  rcases h1 : runSteps oracle config.force
      (if contains config.servers hostname then localSeq config else []) with ⟨t1, c1, a1⟩
  rw [h1] at happ
  cases a1 with
  | some s =>
    exfalso
    rw [htrace, hplan, happ] at hremote
    have : Step.remoteSync server ∈
        (if contains config.servers hostname then localSeq config else []) :=
      runSteps_trace_mem oracle config.force _ _ (by rw [h1]; exact hremote)
    exact hnotL server this
  | none =>
    have ht1 : t1 = (if contains config.servers hostname then localSeq config else []) := by
      have := runSteps_no_abort_trace oracle config.force
        (if contains config.servers hostname then localSeq config else []) (by rw [h1])
      rw [h1] at this
      exact this
    rcases h2 : runSteps oracle config.force (remoteSeq hostname config) with ⟨t2, c2, a2⟩
    rw [h2] at happ
    refine ⟨t2, ?_, ?_⟩
    · rw [htrace, hplan, happ, ht1]
    · intro x hx
      have hx' : x ∈ remoteSeq hostname config :=
        runSteps_trace_mem oracle config.force _ x (by rw [h2]; exact hx)
      simp only [remoteSeq, List.mem_map] at hx'
      obtain ⟨sv, _, heq⟩ := hx'
      exact ⟨sv, heq.symm⟩

/-- C6 witness config: local host plus one remote server, with the local
sync step failing under force, so the remote sync still runs after the
complete local sequence was attempted. -/
def cfgC6 : DeployConfig :=
  { upgradeExtensions := ["A"], servers := ["mw1", "mw2"], force := true }

/-- C6 witness oracle: the local sync fails, everything else succeeds. -/
def oracleC6 : Step → Bool := fun s => s != Step.localSync

/-- C6 witness: the theorem applied at the concrete input above, with the
membership hypothesis discharged by evaluation. -/
theorem remote_sync_after_local_completes_witness :
    Step.remoteSync "mw2" ∈ (executeDeploy oracleC6 "mw1" cfgC6).1 ∧
    ∃ remotePart, (executeDeploy oracleC6 "mw1" cfgC6).1 =
        (if contains cfgC6.servers "mw1" then localSeq cfgC6 else []) ++ remotePart ∧
      ∀ x ∈ remotePart, ∃ sv, x = Step.remoteSync sv :=
  ⟨by decide,
    remote_sync_after_local_completes oracleC6 "mw1" cfgC6 "mw2" (by decide)⟩

/-- C7: validation is a pure function of the raw request and the inventory
snapshot (it returns only a verdict and leaves the request untouched), it
succeeds exactly when no rule is violated, and on failure it reports the
single first violation in the fixed scan order: extensions in declared
order, then skins in declared order, then the empty server list, then a
language filter without l10n — never an aggregate of violations. -/
theorem validation_reports_first_violation (validExtensions validSkins : List String)
    (config : DeployConfig) :
    (validateConfig validExtensions validSkins config = none ↔
      ((∀ e ∈ config.upgradeExtensions, contains validExtensions e = true) ∧
       (∀ s ∈ config.upgradeSkins, contains validSkins s = true) ∧
       config.servers ≠ [] ∧
       (config.lang ≠ "" → config.l10n = true))) ∧
    (∀ pre e post, config.upgradeExtensions = pre ++ e :: post →
      (∀ p ∈ pre, contains validExtensions p = true) →
      contains validExtensions e = false →
      validateConfig validExtensions validSkins config =
        some (ValidationError.invalidExtension e)) ∧
    ((∀ x ∈ config.upgradeExtensions, contains validExtensions x = true) →
      ∀ pre s post, config.upgradeSkins = pre ++ s :: post →
      (∀ p ∈ pre, contains validSkins p = true) →
      contains validSkins s = false →
      validateConfig validExtensions validSkins config =
        some (ValidationError.invalidSkin s)) ∧
    ((∀ x ∈ config.upgradeExtensions, contains validExtensions x = true) →
      (∀ x ∈ config.upgradeSkins, contains validSkins x = true) →
      config.servers = [] →
      validateConfig validExtensions validSkins config = some ValidationError.noServers) ∧
    ((∀ x ∈ config.upgradeExtensions, contains validExtensions x = true) →
      (∀ x ∈ config.upgradeSkins, contains validSkins x = true) →
      config.servers ≠ [] → config.lang ≠ "" → config.l10n = false →
      validateConfig validExtensions validSkins config =
        some ValidationError.langWithoutL10n) :=
  ⟨validateConfig_eq_none_iff validExtensions validSkins config,
   fun pre e post hsplit hpre hfail =>
     validateConfig_first_bad_extension validExtensions validSkins config
       pre e post hsplit hpre hfail,
   fun hA pre s post hsplit hpre hfail =>
     validateConfig_first_bad_skin validExtensions validSkins config hA
       pre s post hsplit hpre hfail,
   fun hA hB hnil =>
     validateConfig_noServers validExtensions validSkins config hA hB hnil,
   fun hA hB hsrv hlang hl10n =>
     validateConfig_langWithoutL10n validExtensions validSkins config
       hA hB hsrv hlang hl10n⟩

/-- C7 witness config: a request whose first declared extension is unknown
while a later one is known, with a valid skin and one server. -/
def cfgC7 : DeployConfig :=
  { upgradeExtensions := ["Bar", "Foo"], upgradeSkins := ["Vec"], servers := ["mw1"] }

/-- C7 witness: the theorem applied at the concrete input above; the first
declared extension is the violation reported. -/
theorem validation_reports_first_violation_witness :
    validateConfig ["Foo"] ["Vec"] cfgC7 = some (ValidationError.invalidExtension "Bar") :=
  (validation_reports_first_violation ["Foo"] ["Vec"] cfgC7).2.1
    [] "Bar" ["Foo"] (by decide) (by decide) (by decide)

/-- C8 counterexample config: an empty server list combined with an
unknown extension name. -/
def cfgC8bad : DeployConfig :=
  { upgradeExtensions := ["Nonexistent"], servers := [] }

/-- C8 counterexample: a request with an empty server list does not always
fail with the no-servers error — with an unknown extension declared, the
extension violation is reported instead, because the extension scan runs
first. -/
theorem empty_servers_error_not_noServers :
    cfgC8bad.servers = [] ∧
    validateConfig [] [] cfgC8bad = some (ValidationError.invalidExtension "Nonexistent") ∧
    validateConfig [] [] cfgC8bad ≠ some ValidationError.noServers := by
  decide

/-- C8 amended: for every request whose resolved server list is empty —
including a full-upgrade request without an explicit server list, since the
expansion never touches the server list — validation fails (with the
no-servers error whenever the extension and skin checks pass, in
particular for the full-upgrade case), and no deploy step is executed. -/
theorem empty_servers_always_fails_validation (oracle : Step → Bool)
    (hostname : String) (validExtensions0 validSkins0 : List String)
    (inv : Inventory) (config : DeployConfig) (hempty : config.servers = []) :
    (runDeploy oracle hostname validExtensions0 validSkins0 inv config).2.1 = [] ∧
    (∃ e, (runDeploy oracle hostname validExtensions0 validSkins0 inv config).2.2 =
      RunResult.validationFailed e) ∧
    ((∀ x ∈ (expandUpgradeWorld validExtensions0 validSkins0 config).upgradeExtensions,
        contains inv.extensions x = true) →
     (∀ x ∈ (expandUpgradeWorld validExtensions0 validSkins0 config).upgradeSkins,
        contains inv.skins x = true) →
     (runDeploy oracle hostname validExtensions0 validSkins0 inv config).2.2 =
       RunResult.validationFailed ValidationError.noServers) := by
  have hserv : (expandUpgradeWorld validExtensions0 validSkins0 config).servers = [] := by
    rw [expandUpgradeWorld_servers, hempty]
  have hval : validateConfig inv.extensions inv.skins
      (expandUpgradeWorld validExtensions0 validSkins0 config) ≠ none := by
    intro h
    obtain ⟨_, _, hsrv, _⟩ := (validateConfig_eq_none_iff _ _ _).mp h
    exact hsrv hserv
  rcases hv : validateConfig inv.extensions inv.skins
      (expandUpgradeWorld validExtensions0 validSkins0 config) with _ | e
  · exact absurd hv hval
  · refine ⟨?_, ⟨e, ?_⟩, ?_⟩
    · simp only [runDeploy]
      rw [hv]
    · simp only [runDeploy]
      rw [hv]
    · intro hA hB
      have hns := validateConfig_noServers inv.extensions inv.skins
        (expandUpgradeWorld validExtensions0 validSkins0 config) hA hB hserv
      rw [hv] at hns
      have he : e = ValidationError.noServers := by
        injection hns
      simp only [runDeploy]
      rw [hv, he]

/-- C8 witness config: full upgrade requested without any server list. -/
def cfgC8 : DeployConfig := { upgradeWorld := true }

/-- C8 witness: the amended theorem applied at the concrete input above,
as reached from process start with a nonempty inventory. -/
theorem empty_servers_always_fails_validation_witness :
    cfgC8.servers = [] ∧
    ((runDeploy (fun _ => true) "mw1" [] [] { extensions := ["Foo"] } cfgC8).2.1 = [] ∧
     (∃ e, (runDeploy (fun _ => true) "mw1" [] [] { extensions := ["Foo"] } cfgC8).2.2 =
       RunResult.validationFailed e) ∧
     ((∀ x ∈ (expandUpgradeWorld [] [] cfgC8).upgradeExtensions,
         contains (Inventory.extensions { extensions := ["Foo"] }) x = true) →
      (∀ x ∈ (expandUpgradeWorld [] [] cfgC8).upgradeSkins,
         contains (Inventory.skins { extensions := ["Foo"] }) x = true) →
      (runDeploy (fun _ => true) "mw1" [] [] { extensions := ["Foo"] } cfgC8).2.2 =
        RunResult.validationFailed ValidationError.noServers)) :=
  ⟨rfl, empty_servers_always_fails_validation (fun _ => true) "mw1" [] []
    { extensions := ["Foo"] } cfgC8 rfl⟩

/-- C9: within the single local mirror sync step, the in-scope subtree
mirrors run in order and the first failing subtree ends the step at once:
the remaining subtree mirrors of that step are not attempted even when
continueOnError (force) is set, and the step fails as a whole. -/
theorem local_sync_stops_at_first_subtree_failure (oracle : RsyncCall → Bool)
    (config : DeployConfig) (_hforce : config.force = true)
    (pre : List RsyncCall) (c : RsyncCall) (post : List RsyncCall)
    (hsplit : localSyncCalls config = pre ++ c :: post)
    (hpre : ∀ p ∈ pre, oracle p = true) (hfail : oracle c = false) :
    rsyncToLocalProduction oracle config = (pre ++ [c], false) := by
  unfold rsyncToLocalProduction
  rw [hsplit, runCalls_failfast oracle c post hfail pre hpre]

/-- C9 witness config: two extension subtrees, force set. -/
def cfgC9 : DeployConfig :=
  { upgradeExtensions := ["A", "B"], servers := ["mw1"], force := true }

/-- C9 witness oracle: the rsync of the first extension subtree fails. -/
def oracleC9 : RsyncCall → Bool :=
  fun c => c.src != "/prod/mediawiki-staging/extensions//A/"

/-- C9 witness: the theorem applied at the concrete input above; only the
first subtree mirror is attempted, the second is skipped although force is
set. -/
theorem local_sync_stops_at_first_subtree_failure_witness :
    cfgC9.force = true ∧
    localSyncCalls cfgC9 =
      [] ++ extensionSyncCall "--update" "A" :: [extensionSyncCall "--update" "B"] ∧
    rsyncToLocalProduction oracleC9 cfgC9 = ([] ++ [extensionSyncCall "--update" "A"], false) :=
  ⟨rfl, by decide,
    local_sync_stops_at_first_subtree_failure oracleC9 cfgC9 rfl
      [] (extensionSyncCall "--update" "A") [extensionSyncCall "--update" "B"]
      (by decide) (by decide) (by decide)⟩

/-- True exactly on extension update steps. -/
def stepIsExtensionUpdate : Step → Bool
  | Step.extensionUpdate _ => true
  | _ => false

/-- True exactly on skin update steps. -/
def stepIsSkinUpdate : Step → Bool
  | Step.skinUpdate _ => true
  | _ => false

/-- The extension updates of the local sequence are exactly one per
declared occurrence, in declared order. -/
theorem localSeq_filter_extensionUpdate (config : DeployConfig) :
    (localSeq config).filter stepIsExtensionUpdate =
      config.upgradeExtensions.map Step.extensionUpdate := by
  have h2 : (config.upgradeExtensions.map Step.extensionUpdate).filter stepIsExtensionUpdate =
      config.upgradeExtensions.map Step.extensionUpdate := by
    refine List.filter_eq_self.mpr ?_
    intro a ha
    obtain ⟨x, _, rfl⟩ := List.mem_map.mp ha
    rfl
  have h3 : (config.upgradeSkins.map Step.skinUpdate).filter stepIsExtensionUpdate = [] := by
    refine List.filter_eq_nil_iff.mpr ?_
    intro a ha
    obtain ⟨x, _, rfl⟩ := List.mem_map.mp ha
    simp [stepIsExtensionUpdate]
  by_cases hv : config.upgradeVendor = true <;> by_cases hl : config.l10n = true <;>
    simp [localSeq, hv, hl, List.filter_append, h2, h3, stepIsExtensionUpdate]

/-- The skin updates of the local sequence are exactly one per declared
occurrence, in declared order. -/
theorem localSeq_filter_skinUpdate (config : DeployConfig) :
    (localSeq config).filter stepIsSkinUpdate =
      config.upgradeSkins.map Step.skinUpdate := by
  have h2 : (config.upgradeSkins.map Step.skinUpdate).filter stepIsSkinUpdate =
      config.upgradeSkins.map Step.skinUpdate := by
    refine List.filter_eq_self.mpr ?_
    intro a ha
    obtain ⟨x, _, rfl⟩ := List.mem_map.mp ha
    rfl
  have h3 : (config.upgradeExtensions.map Step.extensionUpdate).filter stepIsSkinUpdate = [] := by
    refine List.filter_eq_nil_iff.mpr ?_
    intro a ha
    obtain ⟨x, _, rfl⟩ := List.mem_map.mp ha
    simp [stepIsSkinUpdate]
  by_cases hv : config.upgradeVendor = true <;> by_cases hl : config.l10n = true <;>
    simp [localSeq, hv, hl, List.filter_append, h2, h3, stepIsSkinUpdate]

/-- The remote sequence contains no extension or skin update steps. -/
theorem remoteSeq_filter_updates (hostname : String) (config : DeployConfig) :
    (remoteSeq hostname config).filter stepIsExtensionUpdate = [] ∧
    (remoteSeq hostname config).filter stepIsSkinUpdate = [] := by
  constructor <;>
    · refine List.filter_eq_nil_iff.mpr ?_
      intro a ha
      obtain ⟨x, _, rfl⟩ := List.mem_map.mp ha
      simp [stepIsExtensionUpdate, stepIsSkinUpdate]

/-- Indexing an appended triple inside the middle part. -/
theorem getElem?_append_triple_middle {α : Type} (l1 l2 l3 : List α) (i : Nat)
    (h : i < l2.length) :
    (l1 ++ l2 ++ l3)[l1.length + i]? = l2[i]? := by
  rw [List.append_assoc, List.getElem?_append_right (by omega)]
  have h2 : l1.length + i - l1.length = i := by omega
  rw [h2, List.getElem?_append_left h]

/-- Indexing an appended triple inside the last part. -/
theorem getElem?_append_triple_last {α : Type} (l1 l2 l3 : List α) (i : Nat) :
    (l1 ++ l2 ++ l3)[l1.length + l2.length + i]? = l3[i]? := by
  rw [List.append_assoc, List.getElem?_append_right (by omega)]
  have h2 : l1.length + l2.length + i - l1.length = l2.length + i := by omega
  rw [h2, List.getElem?_append_right (by omega)]
  have h3 : l2.length + i - l2.length = i := by omega
  rw [h3]

/-- C10: duplicated target names are not deduplicated anywhere in the
pipeline: the update steps of the executed trace carry one entry per
declared occurrence in order, the local sync step issues one subtree
mirror per occurrence at the corresponding position, and the validation
scans accept a duplicated entry exactly as they accept its first
occurrence (membership is all that is checked). -/
theorem duplicate_targets_run_per_occurrence (oracle : Step → Bool)
    (hostname : String) (config : DeployConfig)
    (hok : ∀ s, oracle s = true)
    (hmem : contains config.servers hostname = true) :
    (executeDeploy oracle hostname config).1.filter stepIsExtensionUpdate =
      config.upgradeExtensions.map Step.extensionUpdate ∧
    (executeDeploy oracle hostname config).1.filter stepIsSkinUpdate =
      config.upgradeSkins.map Step.skinUpdate ∧
    (∀ i : Nat, i < config.upgradeExtensions.length →
      (localSyncCalls config)[(vendorSyncCalls (localSyncParams config) config).length + i]? =
        (config.upgradeExtensions[i]?).map (extensionSyncCall (localSyncParams config))) ∧
    (∀ i : Nat, i < config.upgradeSkins.length →
      (localSyncCalls config)[(vendorSyncCalls (localSyncParams config) config).length +
          config.upgradeExtensions.length + i]? =
        (config.upgradeSkins[i]?).map (skinSyncCall (localSyncParams config))) ∧
    (∀ validExtensions : List String,
      (firstInvalid validExtensions config.upgradeExtensions = none ↔
        ∀ x ∈ config.upgradeExtensions, contains validExtensions x = true)) ∧
    (∀ validSkins : List String,
      (firstInvalid validSkins config.upgradeSkins = none ↔
        ∀ x ∈ config.upgradeSkins, contains validSkins x = true)) := by
  have htrace : (executeDeploy oracle hostname config).1 = plannedSteps hostname config := by
    unfold executeDeploy
    rw [runSteps_all_ok oracle config.force _ (fun s _ => hok s)]
  have hplanned : plannedSteps hostname config = localSeq config ++ remoteSeq hostname config := by
    unfold plannedSteps
    rw [if_pos hmem]
  refine ⟨?_, ?_, ?_, ?_, ?_, ?_⟩
  · rw [htrace, hplanned, List.filter_append, localSeq_filter_extensionUpdate,
      (remoteSeq_filter_updates hostname config).1, List.append_nil]
  · rw [htrace, hplanned, List.filter_append, localSeq_filter_skinUpdate,
      (remoteSeq_filter_updates hostname config).2, List.append_nil]
  · intro i hi
    unfold localSyncCalls
    rw [getElem?_append_triple_middle _ _ _ i (by simpa using hi), List.getElem?_map]
  · intro i hi
    unfold localSyncCalls
    have hlen : config.upgradeExtensions.length =
        (config.upgradeExtensions.map (extensionSyncCall (localSyncParams config))).length := by
      simp
    rw [hlen, getElem?_append_triple_last, List.getElem?_map]
  · intro validExtensions
    exact firstInvalid_eq_none validExtensions config.upgradeExtensions
  · intro validSkins
    exact firstInvalid_eq_none validSkins config.upgradeSkins

/-- C10 witness config: every target list declares the same name twice. -/
def cfgC10 : DeployConfig :=
  { upgradeExtensions := ["A", "A"], upgradeSkins := ["S", "S"],
    upgradeVendor := true, servers := ["mw1"] }

/-- C10 witness: the theorem applied at the concrete duplicated input with
the all-succeeding oracle. -/
theorem duplicate_targets_run_per_occurrence_witness :
    (executeDeploy (fun _ => true) "mw1" cfgC10).1.filter stepIsExtensionUpdate =
      cfgC10.upgradeExtensions.map Step.extensionUpdate ∧
    (executeDeploy (fun _ => true) "mw1" cfgC10).1.filter stepIsSkinUpdate =
      cfgC10.upgradeSkins.map Step.skinUpdate ∧
    (∀ i : Nat, i < cfgC10.upgradeExtensions.length →
      (localSyncCalls cfgC10)[(vendorSyncCalls (localSyncParams cfgC10) cfgC10).length + i]? =
        (cfgC10.upgradeExtensions[i]?).map (extensionSyncCall (localSyncParams cfgC10))) ∧
    (∀ i : Nat, i < cfgC10.upgradeSkins.length →
      (localSyncCalls cfgC10)[(vendorSyncCalls (localSyncParams cfgC10) cfgC10).length +
          cfgC10.upgradeExtensions.length + i]? =
        (cfgC10.upgradeSkins[i]?).map (skinSyncCall (localSyncParams cfgC10))) ∧
    (∀ validExtensions : List String,
      (firstInvalid validExtensions cfgC10.upgradeExtensions = none ↔
        ∀ x ∈ cfgC10.upgradeExtensions, contains validExtensions x = true)) ∧
    (∀ validSkins : List String,
      (firstInvalid validSkins cfgC10.upgradeSkins = none ↔
        ∀ x ∈ cfgC10.upgradeSkins, contains validSkins x = true)) :=
  duplicate_targets_run_per_occurrence (fun _ => true) "mw1" cfgC10 (fun _ => rfl) rfl

/-- C1 failing input, inventory side: the run scans a nonempty inventory. -/
def invC1 : Inventory := { extensions := ["Foo"], skins := ["Vector"] }

/-- C1 failing input, request side: a full-upgrade request for one server. -/
def cfgC1 : DeployConfig := { upgradeWorld := true, servers := ["mw1"] }

/-- C1 evaluated at the failing input: RunDeploy performs the upgrade-world
expansion before it assigns the inventory globals, so the expanded request
that validation and the orchestrator see has EMPTY extension and skin sets
even though the Inventory Snapshot of the run is nonempty; the dependency
update, l10n and timestamp-bypass flags are set as claimed, validation
passes vacuously, the run succeeds, and the known extension Foo is never
updated.  This contradicts the claimed set-equality with the snapshot (and
the flag help text, which promises all extensions and all skins). -/
theorem upgradeWorld_expansion_reads_unset_inventory :
    (runDeployFromStart (fun _ => true) "mw1" invC1 cfgC1).1.upgradeExtensions = [] ∧
    (runDeployFromStart (fun _ => true) "mw1" invC1 cfgC1).1.upgradeSkins = [] ∧
    invC1.extensions = ["Foo"] ∧ invC1.skins = ["Vector"] ∧
    (runDeployFromStart (fun _ => true) "mw1" invC1 cfgC1).1.upgradeVendor = true ∧
    (runDeployFromStart (fun _ => true) "mw1" invC1 cfgC1).1.l10n = true ∧
    (runDeployFromStart (fun _ => true) "mw1" invC1 cfgC1).1.ignoreTime = true ∧
    (runDeployFromStart (fun _ => true) "mw1" invC1 cfgC1).2.2 = RunResult.success ∧
    Step.extensionUpdate "Foo" ∉ (runDeployFromStart (fun _ => true) "mw1" invC1 cfgC1).2.1 := by
  decide

/-- C2 failing input: any request (defaults here), syncing to server mw2. -/
def cfgC2 : DeployConfig := { servers := ["mw1", "mw2"] }

/-- C2 evaluated at the failing input: the argument vector that
rsyncToRemoteServer hands to the mirroring tool.  Because the ssh options
are spliced in as one space-separated params string and runRsync splits on
spaces, the option -e receives only the value ssh, and the private-key
path becomes a standalone argument: under the invocation contract of the
tool it is a third transfer endpoint, not part of the secure-channel
configuration, so the invocation does not have exactly two transfer
endpoints and the key never configures the channel. -/
theorem remote_rsync_key_becomes_transfer_operand :
    rsyncToRemoteServerArgs "mw2" cfgC2 =
      ["--update", "-e", "ssh", "-i", "/prod/mediawiki-staging/deploykey",
       "-r", "--delete", "--exclude=.*", "/prod/mediawiki/",
       "mediawikiuser@mw2:/prod/mediawiki/"] ∧
    rsyncOperands (rsyncToRemoteServerArgs "mw2" cfgC2) =
      ["/prod/mediawiki-staging/deploykey", "/prod/mediawiki/",
       "mediawikiuser@mw2:/prod/mediawiki/"] ∧
    (rsyncOperands (rsyncToRemoteServerArgs "mw2" cfgC2)).length ≠ 2 ∧
    rsyncToRemoteServerArgs "mw2" { cfgC2 with ignoreTime := true } =
      ["--inplace", "-e", "ssh", "-i", "/prod/mediawiki-staging/deploykey",
       "-r", "--delete", "--exclude=.*", "/prod/mediawiki/",
       "mediawikiuser@mw2:/prod/mediawiki/"] := by
  decide

end MwDeploy
